import Mathlib

/-!
# SoCal Surf Tracker — time-series aggregation and trend-analysis engine

Shallow embedding of the core specified for the SoCal-Surf-Tracker
repository, together with the two trend-chart frontend components that do
exist in the repository's source.

The repository ships only the React frontend (`App.jsx`,
`WaveTrendsChart.jsx`, `TempTrendsChart`, map components) plus a Python
dependency manifest; the backend core (Reading Store, Interval Bucketizer,
Statistics Calculator, Trend Classifier, Trend Report Assembler) is not
present in the source tree.  Those components are therefore modelled here
from the specification's own algorithmic descriptions (§3, §4.1–§4.5, §6),
while the chart components are translated from the JSX source.

Numbers: readings and bucket values are modelled as rationals (`ℚ`),
timestamps as integers (`ℤ`, seconds).  The standard deviation, the only
irrational quantity, is the square root of the (rational) population
variance and is exposed as a real-valued projection.
-/

namespace SurfTracker

/-- Modelled from the spec (§3): the three supported metrics
`wave_height`, `wave_period`, `water_temp`. -/
inductive Metric
  | wave_height
  | wave_period
  | water_temp
deriving DecidableEq, Repr

/-- Modelled from the spec (§3): a raw timestamped observation
`{station, metric, timestamp, value}`.  Timestamps are integer seconds,
values rationals. -/
structure Reading where
  station : String
  metric : Metric
  timestamp : ℤ
  value : ℚ
deriving DecidableEq, Repr

/-- Modelled from the spec (§3): a bucket `{intervalStart, value}` — one
representative value per fixed-width time slice. -/
structure Bucket where
  intervalStart : ℤ
  value : ℚ
deriving DecidableEq, Repr

/-- Arithmetic mean of a list of rationals (sum divided by length; the
spec's reduction rule for buckets and the `average` statistic). -/
def meanQ (vals : List ℚ) : ℚ := vals.sum / (vals.length : ℚ)

/-- Modelled from the spec (§3, §4.3): `SeriesStatistics` over a bucketed
series.  The population variance (divide by N) is stored; the standard
deviation is its square root, exposed by `stdDeviation` below. -/
structure SeriesStatistics where
  minimum : ℚ
  maximum : ℚ
  average : ℚ
  variance : ℚ
deriving DecidableEq, Repr

/-- Modelled from the spec (§4.3): the error raised by the Statistics
Calculator on an empty series. -/
inductive StatError
  | insufficientData
deriving DecidableEq, Repr

/-- Modelled from the spec (§4.3): min/max/mean/population-variance over a
non-empty list of bucket values (the pure core of the Statistics
Calculator). -/
def statsOf (vals : List ℚ) : SeriesStatistics :=
  { minimum := vals.foldl min (vals.headD 0)
    maximum := vals.foldl max (vals.headD 0)
    average := meanQ vals
    variance := meanQ (vals.map (fun x => (x - meanQ vals) ^ 2)) }

/-- Modelled from the spec (§4.3): the Statistics Calculator.  Fails with
`InsufficientData` on an empty sequence, otherwise returns the four
statistics computed over the bucketed values. -/
def calculateStatistics (vals : List ℚ) : Except StatError SeriesStatistics :=
  if vals.isEmpty then .error .insufficientData else .ok (statsOf vals)

/-- Modelled from the spec (§4.3): `stdDeviation` is the population
standard deviation, i.e. the square root of the population variance. -/
noncomputable def stdDeviation (s : SeriesStatistics) : ℝ :=
  Real.sqrt (s.variance : ℝ)

/- ### Helper lemmas for fold-based min/max -/

lemma foldl_min_le_init (l : List ℚ) (a : ℚ) : l.foldl min a ≤ a := by
  induction l generalizing a with
  | nil => simp
  | cons x xs ih =>
    calc (x :: xs).foldl min a = xs.foldl min (min a x) := rfl
    _ ≤ min a x := ih _
    _ ≤ a := min_le_left _ _

lemma foldl_min_le_mem (l : List ℚ) (a x : ℚ) (hx : x ∈ l) :
    l.foldl min a ≤ x := by
  induction l generalizing a with
  | nil => cases hx
  | cons y ys ih =>
    rcases List.mem_cons.mp hx with h | h
    · subst h
      calc (x :: ys).foldl min a = ys.foldl min (min a x) := rfl
      _ ≤ min a x := foldl_min_le_init _ _
      _ ≤ x := min_le_right _ _
    · exact ih _ h

lemma le_foldl_max_init (l : List ℚ) (a : ℚ) : a ≤ l.foldl max a := by
  induction l generalizing a with
  | nil => simp
  | cons x xs ih =>
    calc a ≤ max a x := le_max_left _ _
    _ ≤ xs.foldl max (max a x) := ih _
    _ = (x :: xs).foldl max a := rfl

lemma mem_le_foldl_max (l : List ℚ) (a x : ℚ) (hx : x ∈ l) :
    x ≤ l.foldl max a := by
  induction l generalizing a with
  | nil => cases hx
  | cons y ys ih =>
    rcases List.mem_cons.mp hx with h | h
    · subst h
      calc x ≤ max a x := le_max_right _ _
      _ ≤ ys.foldl max (max a x) := le_foldl_max_init _ _
      _ = (x :: ys).foldl max a := rfl
    · exact ih _ h

lemma statsOf_min_le (vals : List ℚ) (x : ℚ) (hx : x ∈ vals) :
    (statsOf vals).minimum ≤ x :=
  foldl_min_le_mem _ _ _ hx

lemma statsOf_le_max (vals : List ℚ) (x : ℚ) (hx : x ∈ vals) :
    x ≤ (statsOf vals).maximum :=
  mem_le_foldl_max _ _ _ hx

lemma statsOf_min_le_average (vals : List ℚ) (h : vals ≠ []) :
    (statsOf vals).minimum ≤ (statsOf vals).average := by
  have hlen : 0 < (vals.length : ℚ) := by
    exact_mod_cast List.length_pos.mpr h
  have hsum : (vals.length : ℚ) * (statsOf vals).minimum ≤ vals.sum := by
    have := List.card_nsmul_le_sum vals ((statsOf vals).minimum)
      (fun x hx => statsOf_min_le vals x hx)
    simpa [nsmul_eq_mul] using this
  show (statsOf vals).minimum ≤ meanQ vals
  rw [meanQ, le_div_iff₀ hlen]
  linarith

lemma statsOf_average_le_max (vals : List ℚ) (h : vals ≠ []) :
    (statsOf vals).average ≤ (statsOf vals).maximum := by
  have hlen : 0 < (vals.length : ℚ) := by
    exact_mod_cast List.length_pos.mpr h
  have hsum : vals.sum ≤ (vals.length : ℚ) * (statsOf vals).maximum := by
    have := List.sum_le_card_nsmul vals ((statsOf vals).maximum)
      (fun x hx => statsOf_le_max vals x hx)
    simpa [nsmul_eq_mul] using this
  show meanQ vals ≤ (statsOf vals).maximum
  rw [meanQ, div_le_iff₀ hlen]
  linarith

lemma statsOf_variance_nonneg (vals : List ℚ) :
    0 ≤ (statsOf vals).variance := by
  show (0 : ℚ) ≤ meanQ (vals.map fun x => (x - meanQ vals) ^ 2)
  apply div_nonneg
  · apply List.sum_nonneg
    intro x hx
    rcases List.mem_map.mp hx with ⟨y, _, rfl⟩
    positivity
  · positivity

/- ### Trend Classifier (spec §4.4) -/

/-- Modelled from the spec (§3, §4.4): trend direction. -/
inductive TrendDirection
  | increasing
  | decreasing
  | stable
deriving DecidableEq, Repr

/-- Modelled from the spec (§3, §4.4): `TrendResult`
`{trendDirection, changePercentage, confidenceScore}`. -/
structure TrendResult where
  trendDirection : TrendDirection
  changePercentage : ℚ
  confidenceScore : ℚ
deriving DecidableEq, Repr

/-- The i-th value of a bucketed series (`t` ordinal index per §4.4). -/
def yAt (vals : List ℚ) (i : ℕ) : ℚ := vals.getD i 0

/-- Modelled from the spec (§4.4 step 1): ordinary-least-squares slope `b`
of `value = a + b·t` over ordinal indices `t = 0, …, n-1`. -/
def olsSlope (vals : List ℚ) : ℚ :=
  let n : ℚ := vals.length
  let sx : ℚ := ∑ i in Finset.range vals.length, (i : ℚ)
  let sy : ℚ := ∑ i in Finset.range vals.length, yAt vals i
  let sxy : ℚ := ∑ i in Finset.range vals.length, (i : ℚ) * yAt vals i
  let sxx : ℚ := ∑ i in Finset.range vals.length, (i : ℚ) ^ 2
  (n * sxy - sx * sy) / (n * sxx - sx ^ 2)

/-- Modelled from the spec (§4.4 step 1): OLS intercept `a`. -/
def olsIntercept (vals : List ℚ) : ℚ :=
  let n : ℚ := vals.length
  let sx : ℚ := ∑ i in Finset.range vals.length, (i : ℚ)
  let sy : ℚ := ∑ i in Finset.range vals.length, yAt vals i
  (sy - olsSlope vals * sx) / n

/-- Modelled from the spec (§4.4 step 4 and failure mode): coefficient of
determination R² of the linear fit; when the total sum of squares is zero
(all values identical) it is defined as `1` — a flat series is perfectly
predicted by its own mean. -/
def rSquared (vals : List ℚ) : ℚ :=
  let a := olsIntercept vals
  let b := olsSlope vals
  let m := meanQ vals
  let ssTot : ℚ := ∑ i in Finset.range vals.length, (yAt vals i - m) ^ 2
  let ssRes : ℚ :=
    ∑ i in Finset.range vals.length, (yAt vals i - (a + b * (i : ℚ))) ^ 2
  if ssTot = 0 then 1 else 1 - ssRes / ssTot

/-- Clamp to `[0, 1]` (§4.4 step 4). -/
def clamp01 (x : ℚ) : ℚ := max 0 (min 1 x)

/-- Modelled from the spec (§4.4 step 2): observed change
`(lastValue - firstValue) / firstValue × 100` over the first and last
bucket values (not the fitted endpoints). -/
def changePct (vals : List ℚ) : ℚ :=
  (vals.getLastD 0 - vals.headD 0) / vals.headD 0 * 100

/-- Modelled from the spec (§4.4 step 3): the dead-zone threshold for the
slope, `0.01 × average` of the series. -/
def deadZone (vals : List ℚ) : ℚ := meanQ vals / 100

/-- Modelled from the spec (§4.4 step 3): `increasing` if the slope is
positive and its magnitude exceeds the dead-zone threshold, `decreasing`
if negative beyond the same threshold, else `stable`. -/
def direction (vals : List ℚ) : TrendDirection :=
  let b := olsSlope vals
  if 0 < b ∧ deadZone vals < |b| then .increasing
  else if b < 0 ∧ deadZone vals < |b| then .decreasing
  else .stable

/-- Modelled from the spec (§4.4): the Trend Classifier.  With fewer than
2 points the result is `stable` / `0` / `0`; otherwise direction, observed
change percentage and clamped R². -/
def classifyTrend (vals : List ℚ) : TrendResult :=
  if vals.length < 2 then ⟨.stable, 0, 0⟩
  else ⟨direction vals, changePct vals, clamp01 (rSquared vals)⟩

/-- A perfectly linear series `c, c+d, c+2d, …` of length `n` (the shape
quantified over in the spec's "perfectly linear series" property). -/
def linSeries (c d : ℚ) (n : ℕ) : List ℚ :=
  (List.range n).map (fun i : ℕ => c + d * (i : ℚ))

/- ### Reading Store (spec §4.1, §6, §9) -/

/-- Timestamp order on readings (the Reading Store keeps each per-key
sequence ordered by timestamp ascending, §4.1). -/
def tsLE (a b : Reading) : Prop := a.timestamp ≤ b.timestamp

instance : DecidableRel tsLE := fun a b => Int.decLe a.timestamp b.timestamp

instance : IsTotal Reading tsLE := ⟨fun a b => Int.le_total a.timestamp b.timestamp⟩

instance : IsTrans Reading tsLE := ⟨fun _ _ _ h h' => le_trans h h'⟩

/-- A store state whose readings are in ascending timestamp order. -/
def tsSorted (st : List Reading) : Prop := List.Sorted tsLE st

/-- Modelled from the spec (§4.1, §6): `record(reading)` appends a reading
in timestamp order; a reading whose `(station, metric, timestamp)` key is
already present is an idempotent no-op.  (`InvalidReading` validation of
non-finite values and future timestamps needs a wall clock and IEEE
non-finite values, neither of which exists in this rational-valued
embedding, and is outside the claims checked here.) -/
def record (st : List Reading) (r : Reading) : List Reading :=
  if st.any (fun x =>
      decide (x.station = r.station ∧ x.metric = r.metric ∧
        x.timestamp = r.timestamp))
  then st
  else List.orderedInsert tsLE r st

/-- Modelled from the spec (§4.1): `query(station, metric, sinceTimestamp)`
returns all readings for that station and metric with
`timestamp ≥ sinceTimestamp`, in store order (timestamp ascending);
an empty list — not an error — when none exist. -/
def query (st : List Reading) (s : String) (m : Metric) (since : ℤ) :
    List Reading :=
  st.filter (fun r =>
    decide (r.station = s ∧ r.metric = m ∧ since ≤ r.timestamp))

/- ### Interval Bucketizer (spec §4.2) -/

/-- Modelled from the spec (§4.2): the readings whose timestamps fall in
the half-open interval `[s, s + w)` of the bucket starting at `s`. -/
def readingsInBucket (rs : List Reading) (s w : ℤ) : List Reading :=
  rs.filter (fun r => decide (s ≤ r.timestamp ∧ r.timestamp < s + w))

/-- Modelled from the spec (§4.2): one bucket: the arithmetic mean of the
readings in `[s, s + w)`, or nothing when the bucket holds zero readings
(gap policy: empty buckets are omitted, never interpolated). -/
def mkBucket (rs : List Reading) (w s : ℤ) : Option Bucket :=
  let inb := readingsInBucket rs s w
  if inb.isEmpty then none
  else some ⟨s, meanQ (inb.map Reading.value)⟩

/-- Modelled from the spec (§4.2): the Interval Bucketizer — one bucket
per interval boundary `windowStart + i·w`, `i = 0, …, k-1`, empty buckets
omitted, emitted in ascending timestamp order. -/
def bucketize (rs : List Reading) (windowStart w : ℤ) (k : ℕ) :
    List Bucket :=
  (List.range k).filterMap
    (fun i : ℕ => mkBucket rs w (windowStart + (i : ℤ) * w))

def secondsPerHour : ℤ := 3600

/-- Modelled from the spec (§4.2, §6): hourly bucketing over the lookback
window `[now - hoursBack·3600, now]`, one bucket per hour boundary. -/
def bucketizeHourly (rs : List Reading) (now : ℤ) (hoursBack : ℕ) :
    List Bucket :=
  bucketize rs (now - hoursBack * secondsPerHour) secondsPerHour hoursBack

/- ### Trend Report Assembler (spec §4.5, §3) -/

/-- Modelled from the spec (§6): the interval enum of the query contract. -/
inductive Interval
  | hourly
deriving DecidableEq, Repr

/-- Modelled from the spec (§3): the `timeSeries` part of a `TrendReport`.
`statistics` is `none` exactly in the degenerate "no data" report — the
Assembler translates `InsufficientData` into it instead of failing. -/
structure TimeSeriesOut where
  interval : Interval
  dataPoints : List Bucket
  statistics : Option SeriesStatistics
  trend : TrendResult
deriving DecidableEq, Repr

/-- Modelled from the spec (§3): the `TrendReport` returned to a caller. -/
structure TrendReport where
  current : Option Reading
  timeSeries : TimeSeriesOut
deriving DecidableEq, Repr

/-- Modelled from the spec (§4.5): the latest raw reading, taken directly
from the (timestamp-ordered) store slice. -/
def latestReading (rs : List Reading) : Option Reading := rs.getLast?

/-- Modelled from the spec (§4.5): the Trend Report Assembler.  Total: the
`InsufficientData` failure of the Statistics Calculator is absorbed into
an optional `statistics` field, and the Trend Classifier is itself total,
so no error ever reaches the caller from here. -/
def assembleReport (rs : List Reading) (now : ℤ) (hoursBack : ℕ) :
    TrendReport :=
  let buckets := bucketizeHourly rs now hoursBack
  let vals := buckets.map Bucket.value
  { current := latestReading rs
    timeSeries :=
      { interval := .hourly
        dataPoints := buckets
        statistics := (calculateStatistics vals).toOption
        trend := classifyTrend vals } }

/- ### Query boundary (spec §6, §7) -/

/-- Modelled from the spec (§6): errors surfaced to the caller at the
query boundary. -/
inductive QueryError
  | unknownStation
  | invalidWindow
deriving DecidableEq, Repr

/-- Modelled from the spec (§1, §6) and the station list of `App.jsx`:
the fixed registry of station identifiers. -/
def stationRegistry : List String :=
  ["Scripps", "Torrey_Pines", "Del_Mar", "Imperial_Beach"]

/-- Modelled from the spec (§6): the boundary errors a trend request
surfaces — `UnknownStation` when the station identifier is not in the
fixed registry, `InvalidWindow` when `hoursBack ≤ 0` or `hoursBack`
exceeds the retention horizon. -/
def boundaryErrors (retentionHours : ℤ) (station : String)
    (hoursBack : ℤ) : List QueryError :=
  (if station ∈ stationRegistry then [] else [.unknownStation]) ++
  (if hoursBack ≤ 0 ∨ retentionHours < hoursBack then [.invalidWindow] else [])

/- ### Frontend trend-chart components
(`src/frontend/src/components/WaveTrendsChart.jsx` and the
`TempTrendsChart` component) -/

/-- A `{timestamp, value}` data point as the charts receive it. -/
structure ChartPoint where
  timestamp : ℤ
  value : ℚ
deriving DecidableEq, Repr

/-- The `timeSeries` prop field as the JSX sees it: each nested field may
be absent (`undefined`/`null`), modelled by `Option`. -/
structure JSTimeSeries where
  dataPoints : Option (List ChartPoint)
  statistics : Option SeriesStatistics
  trend : Option TrendResult
deriving DecidableEq, Repr

/-- The `data` prop: `timeSeries` and `current` may each be absent. -/
structure JSTrendData where
  timeSeries : Option JSTimeSeries
  current : Option ChartPoint
deriving DecidableEq, Repr

/-- What a chart component renders: the loading card (`!data`), the
no-data card (`!data.timeSeries || !data.timeSeries.dataPoints`), or the
actual chart built from the fields destructured after the guards. -/
inductive ChartRender
  | loadingCard
  | noDataCard
  | chart (dataPoints : List ChartPoint) (statistics : Option SeriesStatistics)
      (trend : Option TrendResult)
deriving DecidableEq, Repr

/-- `WaveTrendsChart.jsx` lines 15–39: early return of a loading card when
`data` is null/undefined; early return of a no-data card when
`data.timeSeries` or `data.timeSeries.dataPoints` is absent; only then are
`statistics`, `trend` and `dataPoints` destructured and used. -/
def WaveTrendsChart (data : Option JSTrendData) : ChartRender :=
  match data with
  | none => .loadingCard
  | some d =>
    match d.timeSeries with
    | none => .noDataCard
    | some ts =>
      match ts.dataPoints with
      | none => .noDataCard
      | some dps => .chart dps ts.statistics ts.trend

/-- `TempTrendsChart` lines 15–37: identical guard structure to
`WaveTrendsChart` (loading card on missing `data`, no-data card on missing
`timeSeries`/`dataPoints`, chart otherwise). -/
def TempTrendsChart (data : Option JSTrendData) : ChartRender :=
  match data with
  | none => .loadingCard
  | some d =>
    match d.timeSeries with
    | none => .noDataCard
    | some ts =>
      match ts.dataPoints with
      | none => .noDataCard
      | some dps => .chart dps ts.statistics ts.trend

/-! ## Theorems -/

/-- C1: For every non-empty bucketed series given to the Statistics
Calculator, the `SeriesStatistics` it returns satisfy
`minimum ≤ average ≤ maximum`, the population variance is non-negative,
and `stdDeviation ≥ 0`. -/
theorem statistics_invariants (vals : List ℚ) (h : vals ≠ []) :
    calculateStatistics vals = .ok (statsOf vals) ∧
    (statsOf vals).minimum ≤ (statsOf vals).average ∧
    (statsOf vals).average ≤ (statsOf vals).maximum ∧
    0 ≤ (statsOf vals).variance ∧
    0 ≤ stdDeviation (statsOf vals) := by
  refine ⟨?_, statsOf_min_le_average vals h, statsOf_average_le_max vals h,
    statsOf_variance_nonneg vals, Real.sqrt_nonneg _⟩
  simp [calculateStatistics, h]

/-- Witness for C1 at the concrete series `[1, 2, 3]`. -/
theorem statistics_invariants_check :
    ([1, 2, 3] : List ℚ) ≠ [] ∧
    (calculateStatistics [1, 2, 3] = .ok (statsOf [1, 2, 3]) ∧
     (statsOf ([1, 2, 3] : List ℚ)).minimum ≤ (statsOf [1, 2, 3]).average ∧
     (statsOf ([1, 2, 3] : List ℚ)).average ≤ (statsOf [1, 2, 3]).maximum ∧
     0 ≤ (statsOf ([1, 2, 3] : List ℚ)).variance ∧
     0 ≤ stdDeviation (statsOf [1, 2, 3])) :=
  ⟨by simp, statistics_invariants [1, 2, 3] (by simp)⟩

/-- C7: recording the same `(station, metric, timestamp, value)` tuple
twice leaves the store state — and hence the result of every subsequent
query — identical to recording it once. -/
theorem record_idempotent (st : List Reading) (r : Reading) :
    record (record st r) r = record st r ∧
    ∀ (s : String) (m : Metric) (since : ℤ),
      query (record (record st r) r) s m since =
        query (record st r) s m since := by
  have hkey : (fun x : Reading =>
      decide (x.station = r.station ∧ x.metric = r.metric ∧
        x.timestamp = r.timestamp)) r = true := by simp
  have hstate : record (record st r) r = record st r := by
    unfold record
    by_cases h : st.any (fun x =>
        decide (x.station = r.station ∧ x.metric = r.metric ∧
          x.timestamp = r.timestamp)) = true
    · simp only [if_pos h]
    · simp only [if_neg h]
      have hr : r ∈ List.orderedInsert tsLE r st :=
        (List.perm_orderedInsert tsLE r st).mem_iff.mpr (List.mem_cons_self r st)
      have hany : (List.orderedInsert tsLE r st).any (fun x =>
          decide (x.station = r.station ∧ x.metric = r.metric ∧
            x.timestamp = r.timestamp)) = true :=
        List.any_eq_true.mpr ⟨r, hr, hkey⟩
      rw [if_pos hany]
  exact ⟨hstate, fun s m since => by rw [hstate]⟩

/-- C9: at the query boundary, `UnknownStation` is among the surfaced
errors exactly when the station identifier is not in the fixed registry,
and `InvalidWindow` exactly when `hoursBack ≤ 0` or `hoursBack` exceeds
the retention horizon. -/
theorem boundary_errors_exact (retentionHours : ℤ) (station : String)
    (hoursBack : ℤ) :
    (QueryError.unknownStation ∈ boundaryErrors retentionHours station hoursBack
      ↔ station ∉ stationRegistry) ∧
    (QueryError.invalidWindow ∈ boundaryErrors retentionHours station hoursBack
      ↔ hoursBack ≤ 0 ∨ retentionHours < hoursBack) := by
  unfold boundaryErrors
  by_cases h1 : station ∈ stationRegistry <;>
    by_cases h2 : hoursBack ≤ 0 ∨ retentionHours < hoursBack <;>
      simp [h1, h2]

/-- C10: the trend-chart components render a loading card when `data` is
null/undefined and a no-data card when `timeSeries` or
`timeSeries.dataPoints` is absent — in both absent cases the output does
not depend on `statistics`, `trend` or the other fields — and they reach
the chart branch only when `timeSeries` and `dataPoints` are present. -/
theorem chart_guards :
    WaveTrendsChart none = .loadingCard ∧
    TempTrendsChart none = .loadingCard ∧
    (∀ cur, WaveTrendsChart (some ⟨none, cur⟩) = .noDataCard) ∧
    (∀ cur, TempTrendsChart (some ⟨none, cur⟩) = .noDataCard) ∧
    (∀ stats tr cur,
      WaveTrendsChart (some ⟨some ⟨none, stats, tr⟩, cur⟩) = .noDataCard) ∧
    (∀ stats tr cur,
      TempTrendsChart (some ⟨some ⟨none, stats, tr⟩, cur⟩) = .noDataCard) ∧
    (∀ d dps stats tr,
      WaveTrendsChart (some d) = .chart dps stats tr →
      ∃ ts, d.timeSeries = some ts ∧ ts.dataPoints = some dps ∧
        ts.statistics = stats ∧ ts.trend = tr) ∧
    (∀ d dps stats tr,
      TempTrendsChart (some d) = .chart dps stats tr →
      ∃ ts, d.timeSeries = some ts ∧ ts.dataPoints = some dps ∧
        ts.statistics = stats ∧ ts.trend = tr) := by
  refine ⟨rfl, rfl, fun _ => rfl, fun _ => rfl, fun _ _ _ => rfl,
    fun _ _ _ => rfl, ?_, ?_⟩ <;>
  · rintro ⟨ts?, cur⟩ dps stats tr h
    cases ts? with
    | none => exact absurd h (by simp [WaveTrendsChart, TempTrendsChart])
    | some ts =>
      cases hdp : ts.dataPoints with
      | none =>
        simp [WaveTrendsChart, TempTrendsChart, hdp] at h
      | some l =>
        refine ⟨ts, rfl, ?_⟩
        simp only [WaveTrendsChart, TempTrendsChart, hdp] at h
        cases h
        exact ⟨hdp, rfl, rfl⟩

/-- Witness for C10's chart-branch conjunct at a concrete prop value. -/
theorem chart_guards_check :
    WaveTrendsChart (some ⟨some ⟨some [], none, none⟩, none⟩) =
      .chart [] none none ∧
    (∃ ts, (JSTrendData.mk (some ⟨some [], none, none⟩) none).timeSeries
        = some ts ∧ ts.dataPoints = some [] ∧ ts.statistics = none ∧
        ts.trend = none) :=
  ⟨rfl, chart_guards.2.2.2.2.2.2.1 ⟨some ⟨some [], none, none⟩, none⟩ [] none
    none rfl⟩

lemma mkBucket_eq_some {rs : List Reading} {w s : ℤ} {b : Bucket}
    (h : mkBucket rs w s = some b) :
    b.intervalStart = s ∧
    b.value = meanQ ((readingsInBucket rs s w).map Reading.value) ∧
    readingsInBucket rs s w ≠ [] := by
  unfold mkBucket at h
  by_cases he : (readingsInBucket rs s w).isEmpty = true
  · simp [he] at h
  · simp only [he, if_neg, Bool.false_eq_true, not_false_iff, if_false,
      Option.some.injEq] at h
    subst h
    exact ⟨rfl, rfl, by simpa [List.isEmpty_iff] using he⟩

/-- A demonstration input for the bucketizer: two wave-height readings at
`t = 0` and `t = 30 min` with values `10` and `20`. -/
def demoReadings : List Reading :=
  [⟨"Scripps", .wave_height, 0, 10⟩, ⟨"Scripps", .wave_height, 1800, 20⟩]

/-- C4: every bucket the Interval Bucketizer emits takes its value from
the arithmetic mean of exactly the readings in the bucket's half-open
interval `[bucketStart, bucketStart + width)`, the bucket start lying on
an interval boundary; and bucketizing the readings
`[(t=0, v=10), (t=30min, v=20)]` with a 1-hour interval and 1-hour
lookback (at `now = 3600`) yields exactly one bucket with value 15. -/
theorem bucket_value_is_interval_mean (rs : List Reading)
    (windowStart w : ℤ) (k : ℕ) :
    (∀ b ∈ bucketize rs windowStart w k,
      b.value = meanQ ((readingsInBucket rs b.intervalStart w).map
        Reading.value) ∧
      ∃ i : ℕ, i < k ∧ b.intervalStart = windowStart + (i : ℤ) * w) ∧
    bucketizeHourly demoReadings 3600 1 = [⟨0, 15⟩] := by
  constructor
  · intro b hb
    rcases List.mem_filterMap.mp hb with ⟨i, hi, hsome⟩
    obtain ⟨h1, h2, _⟩ := mkBucket_eq_some hsome
    exact ⟨by rw [h1]; exact h2, i, List.mem_range.mp hi, h1⟩
  · norm_num [bucketizeHourly, bucketize, mkBucket, readingsInBucket,
      demoReadings, meanQ, secondsPerHour, List.range_succ,
      List.filter_cons, List.filter_nil, List.filterMap_cons,
      List.filterMap_nil]
    rw [if_neg (List.cons_ne_nil _ _)]

/-- Witness for C4 at the demonstration input: the single emitted bucket
satisfies the mean property. -/
theorem bucket_value_is_interval_mean_check :
    (⟨0, 15⟩ : Bucket) ∈ bucketize demoReadings 0 3600 1 ∧
    ((⟨0, 15⟩ : Bucket).value =
      meanQ ((readingsInBucket demoReadings (0 : ℤ) 3600).map
        Reading.value) ∧
     ∃ i : ℕ, i < 1 ∧ (⟨0, 15⟩ : Bucket).intervalStart = 0 + (i : ℤ) * 3600) :=
  ⟨by
    norm_num [bucketize, mkBucket, readingsInBucket, demoReadings, meanQ,
      List.range_succ, List.filter_cons, List.filter_nil,
      List.filterMap_cons, List.filterMap_nil]
    rw [if_neg (List.cons_ne_nil _ _)]
    simp,
   (bucket_value_is_interval_mean demoReadings 0 3600 1).1 ⟨0, 15⟩
    (by
      norm_num [bucketize, mkBucket, readingsInBucket, demoReadings, meanQ,
        List.range_succ, List.filter_cons, List.filter_nil,
        List.filterMap_cons, List.filterMap_nil]
      rw [if_neg (List.cons_ne_nil _ _)]
      simp)⟩

/-- C5: for every input reading sequence, positive interval width and
window, the emitted bucket sequence contains no bucket with zero readings
(empty buckets are omitted) and is strictly ascending by bucket
timestamp. -/
theorem buckets_sorted_and_nonempty (rs : List Reading)
    (windowStart w : ℤ) (k : ℕ) (hw : 0 < w) :
    (bucketize rs windowStart w k).Pairwise
      (fun a b => a.intervalStart < b.intervalStart) ∧
    ∀ b ∈ bucketize rs windowStart w k,
      readingsInBucket rs b.intervalStart w ≠ [] := by
  constructor
  · unfold bucketize
    rw [List.pairwise_filterMap]
    have hr : List.Pairwise (· < ·) (List.range k) := List.pairwise_lt_range k
    refine hr.imp_of_mem ?_
    intro i j _ _ hij b hb b' hb'
    rw [(mkBucket_eq_some hb).1, (mkBucket_eq_some hb').1]
    have : (i : ℤ) * w < (j : ℤ) * w := by
      apply mul_lt_mul_of_pos_right _ hw
      exact_mod_cast hij
    linarith
  · intro b hb
    rcases List.mem_filterMap.mp hb with ⟨i, _, hsome⟩
    obtain ⟨h1, _, h3⟩ := mkBucket_eq_some hsome
    rw [h1]
    exact h3

/-- Witness for C5 at a concrete positive width. -/
theorem buckets_sorted_and_nonempty_check :
    (0 : ℤ) < 3600 ∧
    ((bucketize demoReadings 0 3600 2).Pairwise
      (fun a b => a.intervalStart < b.intervalStart) ∧
     ∀ b ∈ bucketize demoReadings 0 3600 2,
       readingsInBucket demoReadings b.intervalStart 3600 ≠ []) :=
  ⟨by norm_num, buckets_sorted_and_nonempty demoReadings 0 3600 2 (by norm_num)⟩

/-- C6: on a timestamp-sorted store, `query` returns exactly the stored
readings of the requested station and metric with
`timestamp ≥ sinceTimestamp`, in ascending timestamp order, and the empty
sequence — not an error — when no reading matches. -/
theorem query_returns_matching_sorted (st : List Reading) (s : String)
    (m : Metric) (since : ℤ) (hs : tsSorted st) :
    (∀ r, r ∈ query st s m since ↔
      r ∈ st ∧ r.station = s ∧ r.metric = m ∧ since ≤ r.timestamp) ∧
    List.Sorted tsLE (query st s m since) ∧
    ((∀ r ∈ st, ¬(r.station = s ∧ r.metric = m ∧ since ≤ r.timestamp)) →
      query st s m since = []) ∧
    (∀ r : Reading, tsSorted (record st r)) := by
  refine ⟨?_, hs.filter _, ?_, ?_⟩
  · intro r
    unfold query
    rw [List.mem_filter]
    simp only [decide_eq_true_eq]
  · intro h
    unfold query
    rw [List.filter_eq_nil_iff]
    intro a ha
    simpa using h a ha
  · intro r
    unfold record
    by_cases h : st.any (fun x =>
        decide (x.station = r.station ∧ x.metric = r.metric ∧
          x.timestamp = r.timestamp)) = true
    · rw [if_pos h]
      exact hs
    · rw [if_neg h]
      exact List.Sorted.orderedInsert r st hs

/-- A demonstration store: two Scripps readings in timestamp order. -/
def demoStore : List Reading :=
  [⟨"Scripps", .wave_height, 100, 2⟩, ⟨"Scripps", .wave_height, 200, 3⟩]

/-- Witness for C6 on a concrete sorted store. -/
theorem query_returns_matching_sorted_check :
    tsSorted demoStore ∧
    ((∀ r, r ∈ query demoStore "Scripps" .wave_height 150 ↔
      r ∈ demoStore ∧ r.station = "Scripps" ∧ r.metric = .wave_height ∧
        (150 : ℤ) ≤ r.timestamp) ∧
     List.Sorted tsLE (query demoStore "Scripps" .wave_height 150) ∧
     ((∀ r ∈ demoStore, ¬(r.station = "Scripps" ∧ r.metric = .wave_height ∧
        (150 : ℤ) ≤ r.timestamp)) →
       query demoStore "Scripps" .wave_height 150 = []) ∧
     (∀ r : Reading, tsSorted (record demoStore r))) :=
  ⟨by norm_num [tsSorted, demoStore, tsLE, List.Sorted, List.pairwise_cons],
   query_returns_matching_sorted demoStore "Scripps" .wave_height 150
    (by norm_num [tsSorted, demoStore, tsLE, List.Sorted, List.pairwise_cons])⟩

/-- C8: when the station has zero readings in the lookback window, the
Trend Report Assembler still returns a `TrendReport` — with empty
`dataPoints`, no statistics (the `InsufficientData` failure of the
Statistics Calculator is absorbed, never surfaced), and the degenerate
trend `stable / 0 / 0`. -/
theorem assembler_no_data_degenerate (rs : List Reading) (now : ℤ)
    (hoursBack : ℕ)
    (h : ∀ r ∈ rs, r.timestamp < now - hoursBack * secondsPerHour ∨
      now < r.timestamp) :
    (assembleReport rs now hoursBack).timeSeries.dataPoints = [] ∧
    (assembleReport rs now hoursBack).timeSeries.statistics = none ∧
    (assembleReport rs now hoursBack).timeSeries.trend =
      ⟨.stable, 0, 0⟩ := by
  have hbuck : bucketizeHourly rs now hoursBack = [] := by
    unfold bucketizeHourly bucketize
    rw [List.filterMap_eq_nil_iff]
    intro i hi
    have hik : (i : ℤ) < (hoursBack : ℤ) := by
      exact_mod_cast List.mem_range.mp hi
    unfold mkBucket
    have hempty : readingsInBucket rs
        (now - hoursBack * secondsPerHour + i * secondsPerHour)
        secondsPerHour = [] := by
      unfold readingsInBucket
      rw [List.filter_eq_nil_iff]
      intro r hr
      have hout := h r hr
      simp only [decide_eq_true_eq, not_and, not_lt]
      intro hlo
      unfold secondsPerHour at *
      rcases hout with hlt | hgt
      · exfalso
        have : (0 : ℤ) ≤ i * 3600 := by positivity
        linarith
      · linarith
    rw [hempty]
    rfl
  refine ⟨?_, ?_, ?_⟩ <;>
    simp [assembleReport, hbuck, calculateStatistics, classifyTrend,
      Except.toOption]

/-- Witness for C8 at the empty store. -/
theorem assembler_no_data_degenerate_check :
    (∀ r ∈ ([] : List Reading),
      r.timestamp < (0 : ℤ) - 24 * secondsPerHour ∨ (0 : ℤ) < r.timestamp) ∧
    ((assembleReport [] 0 24).timeSeries.dataPoints = [] ∧
     (assembleReport [] 0 24).timeSeries.statistics = none ∧
     (assembleReport [] 0 24).timeSeries.trend = ⟨.stable, 0, 0⟩) :=
  ⟨by simp, assembler_no_data_degenerate [] 0 24 (by simp)⟩

/- ### Series algebra helpers for the Trend Classifier proofs -/

lemma sum_eq_sum_yAt (l : List ℚ) :
    l.sum = ∑ i in Finset.range l.length, yAt l i := by
  induction l with
  | nil => simp
  | cons a tl ih =>
    rw [List.sum_cons, List.length_cons, Finset.sum_range_succ', ih]
    simp only [yAt, List.getD_cons_succ, List.getD_cons_zero]
    ring

lemma yAt_of_mem_eq {ys : List ℚ} {c : ℚ} (hc : ∀ x ∈ ys, x = c) {i : ℕ}
    (hi : i < ys.length) : yAt ys i = c := by
  unfold yAt
  rw [List.getD_eq_getElem ys 0 hi]
  exact hc _ (List.getElem_mem hi)

lemma headD_of_mem_eq {ys : List ℚ} {c : ℚ} (hne : ys ≠ [])
    (hc : ∀ x ∈ ys, x = c) : ys.headD 0 = c := by
  cases ys with
  | nil => exact absurd rfl hne
  | cons a tl => exact hc a (List.mem_cons_self a tl)

lemma getLastD_of_mem_eq {ys : List ℚ} {c : ℚ} (hne : ys ≠ [])
    (hc : ∀ x ∈ ys, x = c) : ys.getLastD 0 = c := by
  rw [List.getLastD_eq_getLast?, List.getLast?_eq_getLast ys hne]
  exact hc _ (List.getLast_mem hne)

lemma sum_yAt_const {ys : List ℚ} {c : ℚ} (hc : ∀ x ∈ ys, x = c) :
    ∑ i in Finset.range ys.length, yAt ys i = (ys.length : ℚ) * c := by
  rw [Finset.sum_congr rfl
    (fun i hi => yAt_of_mem_eq hc (Finset.mem_range.mp hi)),
    Finset.sum_const, Finset.card_range, nsmul_eq_mul]

lemma sum_iyAt_const {ys : List ℚ} {c : ℚ} (hc : ∀ x ∈ ys, x = c) :
    ∑ i in Finset.range ys.length, (i : ℚ) * yAt ys i =
      (∑ i in Finset.range ys.length, (i : ℚ)) * c := by
  rw [Finset.sum_mul]
  exact Finset.sum_congr rfl fun i hi => by
    rw [yAt_of_mem_eq hc (Finset.mem_range.mp hi)]

lemma meanQ_const {ys : List ℚ} {c : ℚ} (hne : ys ≠ [])
    (hc : ∀ x ∈ ys, x = c) : meanQ ys = c := by
  have hlen : (ys.length : ℚ) ≠ 0 := by
    exact_mod_cast (List.length_pos.mpr hne).ne'
  unfold meanQ
  rw [sum_eq_sum_yAt, sum_yAt_const hc, mul_comm, mul_div_assoc,
    div_self hlen, mul_one]

lemma olsSlope_const {ys : List ℚ} {c : ℚ} (hc : ∀ x ∈ ys, x = c) :
    olsSlope ys = 0 := by
  simp only [olsSlope]
  rw [sum_yAt_const hc, sum_iyAt_const hc]
  rw [show ((ys.length : ℚ) *
      ((∑ i in Finset.range ys.length, (i : ℚ)) * c) -
      (∑ i in Finset.range ys.length, (i : ℚ)) * ((ys.length : ℚ) * c))
      = 0 by ring, zero_div]

lemma direction_const {ys : List ℚ} {c : ℚ} (hc : ∀ x ∈ ys, x = c) :
    direction ys = .stable := by
  simp [direction, olsSlope_const hc]

lemma changePct_const {ys : List ℚ} {c : ℚ} (hne : ys ≠ [])
    (hc : ∀ x ∈ ys, x = c) : changePct ys = 0 := by
  unfold changePct
  rw [headD_of_mem_eq hne hc, getLastD_of_mem_eq hne hc, sub_self, zero_div,
    zero_mul]

lemma rSquared_const {ys : List ℚ} {c : ℚ} (hne : ys ≠ [])
    (hc : ∀ x ∈ ys, x = c) : rSquared ys = 1 := by
  simp only [rSquared]
  rw [if_pos]
  apply Finset.sum_eq_zero
  intro i hi
  rw [yAt_of_mem_eq hc (Finset.mem_range.mp hi), meanQ_const hne hc]
  ring

/-- C2: for every bucket sequence of length at least 2 whose values are
all identical, the Trend Classifier returns `trendDirection = stable`,
`changePercentage = 0` and `confidenceScore = 1`. -/
theorem constant_series_trend (ys : List ℚ) (c : ℚ) (h2 : 2 ≤ ys.length)
    (hc : ∀ x ∈ ys, x = c) :
    classifyTrend ys = ⟨.stable, 0, 1⟩ := by
  have hne : ys ≠ [] := by
    intro h
    rw [h] at h2
    simp at h2
  unfold classifyTrend
  rw [if_neg (not_lt.mpr h2), direction_const hc, changePct_const hne hc,
    rSquared_const hne hc]
  norm_num [clamp01]

/-- Witness for C2 at the concrete constant series `[3, 3, 3]`. -/
theorem constant_series_trend_check :
    (2 ≤ ([3, 3, 3] : List ℚ).length ∧ ∀ x ∈ ([3, 3, 3] : List ℚ), x = 3) ∧
    classifyTrend [3, 3, 3] = ⟨.stable, 0, 1⟩ :=
  ⟨⟨by norm_num, by
      intro x hx
      rcases List.mem_cons.mp hx with h | hx <;>
        first
          | exact h
          | (rcases List.mem_cons.mp hx with h | hx
             · exact h
             · simpa using hx)⟩,
   constant_series_trend [3, 3, 3] 3 (by norm_num)
    (by
      intro x hx
      rcases List.mem_cons.mp hx with h | hx
      · exact h
      · rcases List.mem_cons.mp hx with h | hx
        · exact h
        · simpa using hx)⟩

/- ### Linear-series lemmas for the Trend Classifier -/

lemma sum_range_cast (n : ℕ) :
    ∑ i in Finset.range n, (i : ℚ) = (n : ℚ) * ((n : ℚ) - 1) / 2 := by
  induction n with
  | zero => simp
  | succ m ih =>
    rw [Finset.sum_range_succ, ih]
    push_cast
    ring

lemma sum_range_cast_sq (n : ℕ) :
    ∑ i in Finset.range n, ((i : ℚ)) ^ 2 =
      (n : ℚ) * ((n : ℚ) - 1) * (2 * (n : ℚ) - 1) / 6 := by
  induction n with
  | zero => simp
  | succ m ih =>
    rw [Finset.sum_range_succ, ih]
    push_cast
    ring

lemma sum_quad (a2 a1 a0 : ℚ) (n : ℕ) :
    ∑ i in Finset.range n, (a2 * (i : ℚ) ^ 2 + a1 * (i : ℚ) + a0) =
      a2 * ((n : ℚ) * ((n : ℚ) - 1) * (2 * (n : ℚ) - 1) / 6) +
      a1 * ((n : ℚ) * ((n : ℚ) - 1) / 2) + a0 * (n : ℚ) := by
  rw [Finset.sum_add_distrib, Finset.sum_add_distrib, ← Finset.mul_sum,
    ← Finset.mul_sum, sum_range_cast, sum_range_cast_sq, Finset.sum_const,
    Finset.card_range, nsmul_eq_mul]
  ring

lemma length_linSeries (c d : ℚ) (n : ℕ) : (linSeries c d n).length = n := by
  simp [linSeries]

lemma yAt_linSeries (c d : ℚ) {n i : ℕ} (h : i < n) :
    yAt (linSeries c d n) i = c + d * (i : ℚ) := by
  unfold yAt linSeries
  rw [List.getD_eq_getElem _ 0 (by simpa using h)]
  simp

lemma sum_yAt_linSeries (c d : ℚ) (n : ℕ) :
    ∑ i in Finset.range n, yAt (linSeries c d n) i =
      d * ((n : ℚ) * ((n : ℚ) - 1) / 2) + c * (n : ℚ) := by
  have h : ∑ i in Finset.range n, yAt (linSeries c d n) i =
      ∑ i in Finset.range n, (0 * (i : ℚ) ^ 2 + d * (i : ℚ) + c) := by
    refine Finset.sum_congr rfl fun i hi => ?_
    rw [yAt_linSeries c d (Finset.mem_range.mp hi)]
    ring
  rw [h, sum_quad]
  ring

lemma sum_iyAt_linSeries (c d : ℚ) (n : ℕ) :
    ∑ i in Finset.range n, (i : ℚ) * yAt (linSeries c d n) i =
      d * ((n : ℚ) * ((n : ℚ) - 1) * (2 * (n : ℚ) - 1) / 6) +
        c * ((n : ℚ) * ((n : ℚ) - 1) / 2) := by
  have h : ∑ i in Finset.range n, (i : ℚ) * yAt (linSeries c d n) i =
      ∑ i in Finset.range n, (d * (i : ℚ) ^ 2 + c * (i : ℚ) + 0) := by
    refine Finset.sum_congr rfl fun i hi => ?_
    rw [yAt_linSeries c d (Finset.mem_range.mp hi)]
    ring
  rw [h, sum_quad]
  ring

lemma linSeries_den_ne (n : ℕ) (hn : 2 ≤ n) :
    (n : ℚ) * ((n : ℚ) * ((n : ℚ) - 1) * (2 * (n : ℚ) - 1) / 6) -
      ((n : ℚ) * ((n : ℚ) - 1) / 2) ^ 2 ≠ 0 := by
  have hN : (2 : ℚ) ≤ (n : ℚ) := by exact_mod_cast hn
  have h : (n : ℚ) * ((n : ℚ) * ((n : ℚ) - 1) * (2 * (n : ℚ) - 1) / 6) -
      ((n : ℚ) * ((n : ℚ) - 1) / 2) ^ 2 =
      (n : ℚ) ^ 2 * ((n : ℚ) - 1) * ((n : ℚ) + 1) / 12 := by ring
  rw [h]
  have h0 : (0 : ℚ) < (n : ℚ) := by linarith
  have h1 : (0 : ℚ) < (n : ℚ) - 1 := by linarith
  have h2 : (0 : ℚ) < (n : ℚ) + 1 := by linarith
  have : (0 : ℚ) < (n : ℚ) ^ 2 * ((n : ℚ) - 1) * ((n : ℚ) + 1) / 12 := by
    apply div_pos _ (by norm_num)
    exact mul_pos (mul_pos (by positivity) h1) h2
  exact this.ne'

lemma olsSlope_linSeries (c d : ℚ) (n : ℕ) (hn : 2 ≤ n) :
    olsSlope (linSeries c d n) = d := by
  simp only [olsSlope, length_linSeries]
  rw [sum_yAt_linSeries, sum_iyAt_linSeries, sum_range_cast,
    sum_range_cast_sq, div_eq_iff (linSeries_den_ne n hn)]
  ring

lemma olsIntercept_linSeries (c d : ℚ) (n : ℕ) (hn : 2 ≤ n) :
    olsIntercept (linSeries c d n) = c := by
  have hN : (n : ℚ) ≠ 0 := by
    have : (2 : ℚ) ≤ (n : ℚ) := by exact_mod_cast hn
    linarith
  simp only [olsIntercept, length_linSeries]
  rw [olsSlope_linSeries c d n hn, sum_yAt_linSeries, sum_range_cast,
    div_eq_iff hN]
  ring

lemma rSquared_linSeries (c d : ℚ) (n : ℕ) (hn : 2 ≤ n) :
    rSquared (linSeries c d n) = 1 := by
  simp only [rSquared, length_linSeries]
  rw [olsSlope_linSeries c d n hn, olsIntercept_linSeries c d n hn]
  have hres : ∑ i in Finset.range n,
      (yAt (linSeries c d n) i - (c + d * (i : ℚ))) ^ 2 = 0 := by
    apply Finset.sum_eq_zero
    intro i hi
    rw [yAt_linSeries c d (Finset.mem_range.mp hi)]
    ring
  rw [hres]
  by_cases h : (∑ i in Finset.range n,
      (yAt (linSeries c d n) i - meanQ (linSeries c d n)) ^ 2) = 0
  · rw [if_pos h]
  · rw [if_neg h, zero_div, sub_zero]

/-- C3 counterexample: `linSeries 10000 1 2 = [10000, 10001]` is a
perfectly linear, strictly increasing bucket sequence, yet the classifier
labels it `stable`, not `increasing`: its slope `1` does not exceed the
dead-zone threshold `0.01 × average = 100.005`.  (Its confidence score is
still `1`.) -/
theorem linear_series_direction_cex :
    linSeries 10000 1 2 = [10000, 10001] ∧
    classifyTrend [10000, 10001] =
      ⟨.stable, 1 / 100, 1⟩ := by
  constructor
  · norm_num [linSeries, List.range_succ]
  · norm_num [classifyTrend, direction, changePct, clamp01, rSquared,
      olsSlope, olsIntercept, meanQ, deadZone, yAt, Finset.sum_range_succ]

/-- C3 (amended): on `[1,2,3,4,5]` the Trend Classifier returns
`increasing` / `400` / `1`; for every series of length ≥ 2 the
`changePercentage` field is `(last − first) / first × 100` over the raw
first and last bucket values; every perfectly linear series of length ≥ 2
has `confidenceScore = 1`; and a strictly increasing perfectly linear
series is classified `increasing` whenever its slope exceeds the
dead-zone threshold `0.01 × average` (the counterexample shows the
dead-zone makes this conditional necessary). -/
theorem linear_series_trend :
    classifyTrend [1, 2, 3, 4, 5] = ⟨.increasing, 400, 1⟩ ∧
    (∀ vals : List ℚ, 2 ≤ vals.length →
      (classifyTrend vals).changePercentage =
        (vals.getLastD 0 - vals.headD 0) / vals.headD 0 * 100) ∧
    (∀ (c d : ℚ) (n : ℕ), 2 ≤ n →
      (classifyTrend (linSeries c d n)).confidenceScore = 1) ∧
    (∀ (c d : ℚ) (n : ℕ), 2 ≤ n → 0 < d → deadZone (linSeries c d n) < d →
      (classifyTrend (linSeries c d n)).trendDirection = .increasing) := by
  refine ⟨?_, ?_, ?_, ?_⟩
  · norm_num [classifyTrend, direction, changePct, clamp01, rSquared,
      olsSlope, olsIntercept, meanQ, deadZone, yAt, Finset.sum_range_succ]
  · intro vals h2
    rw [classifyTrend, if_neg (not_lt.mpr h2)]
    rfl
  · intro c d n hn
    have hlen : ¬(linSeries c d n).length < 2 := by
      rw [length_linSeries]
      omega
    rw [classifyTrend, if_neg hlen]
    show clamp01 (rSquared (linSeries c d n)) = 1
    rw [rSquared_linSeries c d n hn]
    norm_num [clamp01]
  · intro c d n hn hd hdz
    have hlen : ¬(linSeries c d n).length < 2 := by
      rw [length_linSeries]
      omega
    rw [classifyTrend, if_neg hlen]
    show direction (linSeries c d n) = .increasing
    simp only [direction, olsSlope_linSeries c d n hn]
    rw [if_pos ⟨hd, by rwa [abs_of_pos hd]⟩]

/-- Witness for C3's amended theorem at the strictly increasing linear
series `linSeries 0 1 5 = [0, 1, 2, 3, 4]`. -/
theorem linear_series_trend_check :
    (2 ≤ ([1, 2, 3, 4, 5] : List ℚ).length ∧ 2 ≤ 5 ∧ (0 : ℚ) < 1 ∧
      deadZone (linSeries 0 1 5) < 1) ∧
    (classifyTrend ([1, 2, 3, 4, 5] : List ℚ)).changePercentage =
      (([1, 2, 3, 4, 5] : List ℚ).getLastD 0 -
        ([1, 2, 3, 4, 5] : List ℚ).headD 0) /
        ([1, 2, 3, 4, 5] : List ℚ).headD 0 * 100 ∧
    (classifyTrend (linSeries 0 1 5)).confidenceScore = 1 ∧
    (classifyTrend (linSeries 0 1 5)).trendDirection = .increasing :=
  ⟨⟨by norm_num, by norm_num, by norm_num,
    by norm_num [deadZone, meanQ, linSeries, List.range_succ]⟩,
   linear_series_trend.2.1 [1, 2, 3, 4, 5] (by norm_num),
   linear_series_trend.2.2.1 0 1 5 (by norm_num),
   linear_series_trend.2.2.2 0 1 5 (by norm_num) (by norm_num)
    (by norm_num [deadZone, meanQ, linSeries, List.range_succ])⟩

end SurfTracker
